import Mathlib

/-!
Verification of the Resonance backend core: the bounded LRU session store,
the context assembler (history rendering, prompt templates, token-budget
truncation), the search-service retry loop, and the decoding engine's
truncation / sampling / streaming skeleton.

External capabilities (the tiktoken codec, the neural scoring model, the
random sampler, the DuckDuckGo client) are modelled as function parameters;
everything else is translated from `src/backend` definition by definition.
-/

namespace Resonance

/-! ## Data model (schemas.py) -/

/-- `SearchResult` schema: title, url, snippet (schemas.py). -/
structure SourceInfo where
  title : String
  url : String
  snippet : String
deriving DecidableEq, Repr

/-- `ChatMessage` schema (schemas.py): role, content, optional timestamp,
optional sources.  Timestamps are abstracted to `Nat` instants. -/
structure ChatMessage where
  role : String
  content : String
  timestamp : Option Nat := none
  sources : Option (List SourceInfo) := none
deriving DecidableEq, Repr

/-! ## ConversationStore (chat_manager.py lines 19-56)

The Python `OrderedDict` is modelled as an association list whose head is
the least-recently-touched entry and whose last element is the
most-recently-touched one; `move_to_end` removes the entry and reappends
it, `popitem(last=False)` drops the head. -/

abbrev Sessions := List (String × List ChatMessage)

/-- Keys of the ordered session map, in recency order (head = LRU). -/
def sessionKeys (s : Sessions) : List String := s.map Prod.fst

/-- `session_id in self.sessions` / `self.sessions[session_id]`. -/
def lookupSession : Sessions → String → Option (List ChatMessage)
  | [], _ => none
  | (k, v) :: rest, id => if k = id then some v else lookupSession rest id

/-- `del self.sessions[id]` (removes the first entry with the key). -/
def removeSession : Sessions → String → Sessions
  | [], _ => []
  | (k, v) :: rest, id => if k = id then rest else (k, v) :: removeSession rest id

/-- `self.sessions[id].append(m)`: append to the entry with the key. -/
def appendToSession : Sessions → String → ChatMessage → Sessions
  | [], _, _ => []
  | (k, v) :: rest, id, m =>
    if k = id then (k, v ++ [m]) :: rest else (k, v) :: appendToSession rest id m

/-- `OrderedDict.move_to_end(id)`: reposition the entry as most recent. -/
def moveToEnd (s : Sessions) (id : String) : Sessions :=
  match lookupSession s id with
  | some v => removeSession s id ++ [(id, v)]
  | none => s

/-- In-memory conversation storage with LRU eviction
(`ConversationStore`, chat_manager.py lines 19-56). -/
structure ConversationStore where
  sessions : Sessions
  max_sessions : Nat
deriving DecidableEq, Repr

/-- `ConversationStore()` with default capacity 1000 (chat_manager.py line 22). -/
def ConversationStore.empty (maxSessions : Nat := 1000) : ConversationStore :=
  { sessions := [], max_sessions := maxSessions }

/-- `ConversationStore.get` (chat_manager.py lines 26-31): returns the
history (empty if absent) and touches the session's recency. -/
def ConversationStore.get (st : ConversationStore) (id : String) :
    ConversationStore × List ChatMessage :=
  match lookupSession st.sessions id with
  | some msgs => ({ st with sessions := moveToEnd st.sessions id }, msgs)
  | none => (st, [])

/-- Timestamp backfill at insertion (chat_manager.py lines 42-43). -/
def backfillTimestamp (m : ChatMessage) (now : Nat) : ChatMessage :=
  if m.timestamp = none then { m with timestamp := some now } else m

/-- `ConversationStore.add_message` (chat_manager.py lines 33-45): create the
session if absent (evicting the head entry first when at capacity), touch
recency, backfill the timestamp, append. -/
def ConversationStore.add_message (st : ConversationStore) (id : String)
    (m : ChatMessage) (now : Nat) : ConversationStore :=
  let s0 :=
    if (lookupSession st.sessions id).isSome then st.sessions
    else
      let s1 := if st.sessions.length ≥ st.max_sessions then st.sessions.tail
                else st.sessions
      s1 ++ [(id, [])]
  let s2 := moveToEnd s0 id
  let s3 := appendToSession s2 id (backfillTimestamp m now)
  { st with sessions := s3 }

/-- `ConversationStore.clear` (chat_manager.py lines 47-52). -/
def ConversationStore.clear (st : ConversationStore) (id : String) :
    ConversationStore × Bool :=
  if (lookupSession st.sessions id).isSome then
    ({ st with sessions := removeSession st.sessions id }, true)
  else (st, false)

/-- One externally visible store operation. -/
inductive StoreOp where
  | get (id : String)
  | add (id : String) (m : ChatMessage) (now : Nat)
  | clear (id : String)
deriving DecidableEq, Repr

/-- Run one operation (results discarded, state kept). -/
def applyOp (st : ConversationStore) : StoreOp → ConversationStore
  | .get id => (st.get id).1
  | .add id m now => st.add_message id m now
  | .clear id => (st.clear id).1

/-- Run a sequence of store operations. -/
def applyOps (st : ConversationStore) (ops : List StoreOp) : ConversationStore :=
  ops.foldl applyOp st

/-! ## Configuration constants (config.py, defaults) -/

/-- config.py line 43. -/
def MAX_CONTEXT_TOKENS : Nat := 1024

/-- config.py line 59 default. -/
def SEARCH_ENABLED : Bool := true

/-- config.py line 62 default. -/
def SEARCH_RETRY_ATTEMPTS : Nat := 2

/-- config.py lines 65-70. -/
def SEARCH_TRIGGER_KEYWORDS : List String :=
  ["search", "browse", "google", "internet", "lookup", "find online",
   "stock", "price", "today", "current", "latest", "now", "weather",
   "news", "score", "rate", "live", "recent", "update", "2024", "2025",
   "who is", "what is the current", "how much"]

/-- config.py line 87 default (`GPT2_BLOCK_SIZE`). -/
def GPT2_BLOCK_SIZE : Nat := 1024

/-- config.py line 88. -/
def GPT2_EOS_TOKEN_ID : Nat := 50256

/-! ## String helpers mirroring the Python primitives used by the core -/

/-- Whether `needle` is an initial segment of `hay` (character lists). -/
def listBeginsWith : List Char → List Char → Bool
  | [], _ => true
  | _ :: _, [] => false
  | c :: cs, d :: ds => c = d && listBeginsWith cs ds

/-- Whether `needle` occurs contiguously inside `hay` (character lists). -/
def listContainsSub (needle : List Char) : List Char → Bool
  | [] => needle.isEmpty
  | c :: cs => listBeginsWith needle (c :: cs) || listContainsSub needle cs

/-- Python `needle in hay` on strings. -/
def strContains (hay needle : String) : Bool :=
  listContainsSub needle.data hay.data

/-- Python `str.lower()` (ASCII, as used on the keyword queries). -/
def strToLower (s : String) : String := String.mk (s.data.map Char.toLower)

/-- Python `s[:n]`. -/
def strTake (s : String) (n : Nat) : String := String.mk (s.data.take n)

/-! ## ChatManager prompt construction (chat_manager.py lines 59-177) -/

/-- `ChatManager.DEFAULT_SYSTEM` (chat_manager.py lines 63-66). -/
def DEFAULT_SYSTEM : String :=
  "You are a helpful AI assistant. Be concise and accurate. If you don't know something, say so honestly."

/-- `ChatManager.SEARCH_SYSTEM` (chat_manager.py lines 68-72). -/
def SEARCH_SYSTEM : String :=
  "You are a helpful AI assistant with access to web search results. IMPORTANT: Base your answer ONLY on the search results provided below. Do NOT make up information. If the search results don't contain the answer, say so."

/-- `ChatManager._should_search` (chat_manager.py lines 77-83). -/
def should_search (query : String) : Bool :=
  SEARCH_ENABLED &&
    SEARCH_TRIGGER_KEYWORDS.any (fun kw => strContains (strToLower query) kw)

/-- One history line of `_build_history_context` (chat_manager.py lines 91-95):
user and assistant turns become labeled lines, other roles none. -/
def renderHistoryLine (m : ChatMessage) : Option String :=
  if m.role = "user" then some ("User: " ++ m.content)
  else if m.role = "assistant" then some ("Assistant: " ++ m.content)
  else none

/-- `ChatManager._build_history_context` (chat_manager.py lines 85-99). -/
def build_history_context (messages : List ChatMessage) : String :=
  if messages.isEmpty then ""
  else
    let history_parts := messages.filterMap renderHistoryLine
    if history_parts.isEmpty then ""
    else "Previous conversation:\n" ++ String.intercalate "\n" history_parts ++ "\n\n"

/-- One step of the instruction/history split loop in `_build_prompt`
(chat_manager.py lines 114-120): state is (last_user_msg, history_msgs). -/
def instructionStep (acc : String × List ChatMessage) (msg : ChatMessage) :
    String × List ChatMessage :=
  if msg.role = "user" then
    (msg.content,
     if acc.1 ≠ "" then acc.2 ++ [ChatMessage.mk "user" acc.1 none none] else acc.2)
  else if msg.role = "assistant" then (acc.1, acc.2 ++ [msg])
  else acc

/-- The instruction/history split of `_build_prompt` (chat_manager.py
lines 110-120), starting from `last_user_msg = ""`, `history_msgs = []`. -/
def splitInstruction (messages : List ChatMessage) : String × List ChatMessage :=
  messages.foldl instructionStep ("", [])

/-- `ChatManager._build_prompt` (chat_manager.py lines 101-152); the Python
`if search_results:` truthiness test is false for both `None` and `""`. -/
def build_prompt (messages : List ChatMessage) (searchResults : Option String) :
    String :=
  let lastAndHist := splitInstruction messages
  let history_context := build_history_context lastAndHist.2
  let grounded : Bool := match searchResults with
    | some s => s != ""
    | none => false
  if grounded then
    SEARCH_SYSTEM ++ "\n\n### Search Results:\n" ++ searchResults.getD "" ++ "\n\n"
      ++ history_context ++ "### User Question:\n" ++ lastAndHist.1
      ++ "\n\n### Instructions:\n1. Answer based ONLY on the search results above\n2. Quote specific facts, numbers, or prices directly\n3. Cite which source you used\n4. If the answer isn't in the results, say \"I couldn't find that information\"\n\n### Response:\n"
  else
    DEFAULT_SYSTEM ++ "\n\n" ++ history_context ++ "### Instruction:\n"
      ++ lastAndHist.1 ++ "\n\n### Response:\n"

/-- Token cost of one message in `_truncate_messages`
(chat_manager.py line 170): `count_tokens(f"{msg.role}: {msg.content}")`.
The codec is a parameter `count`. -/
def msgCost (count : String → Nat) (m : ChatMessage) : Nat :=
  count (m.role ++ ": " ++ m.content)

/-- Total token cost of a message list. -/
def costSum (count : String → Nat) (l : List ChatMessage) : Nat :=
  (l.map (msgCost count)).sum

/-- The scan of `_truncate_messages` (chat_manager.py lines 169-175) over the
reversed message list: greedily keep while the running total stays within
`available`, break at the first message that does not fit.  The result is in
most-recent-first order. -/
def selectRev (count : String → Nat) (available : Int) :
    List ChatMessage → Int → List ChatMessage
  | [], _ => []
  | m :: rest, current =>
    if current + (msgCost count m : Int) ≤ available then
      m :: selectRev count available rest (current + (msgCost count m : Int))
    else []

/-- `ChatManager._truncate_messages` (chat_manager.py lines 154-177):
`available_tokens = max_tokens - 200`, scan from most recent backward,
`selected.insert(0, msg)` restores chronological order. -/
def truncate_messages (count : String → Nat) (messages : List ChatMessage)
    (max_tokens : Nat) : List ChatMessage :=
  if messages.isEmpty then messages
  else (selectRev count ((max_tokens : Int) - 200) messages.reverse 0).reverse

/-! ## SearchService (search_service.py) -/

/-- A raw result dictionary from the DuckDuckGo client; a missing field is
modelled as the empty string (both are falsy in the Python validation). -/
structure RawResult where
  title : String
  href : String
  body : String
deriving DecidableEq, Repr

/-- `SearchService._validate_results` (search_service.py lines 119-132):
keep results whose three fields are truthy, strip them, cap the body at
500 characters. -/
def validate_results (results : List RawResult) : List RawResult :=
  (results.filter (fun r => !(r.title = "") && !(r.href = "") && !(r.body = ""))).map
    (fun r => RawResult.mk r.title.trim r.href.trim (strTake r.body.trim 500))

/-- Outcome of one call to the DuckDuckGo client: it raises or returns a
result list. -/
inductive CallOutcome where
  | raise : CallOutcome
  | ok : List RawResult → CallOutcome
deriving DecidableEq, Repr

/-- The retry loop of `SearchService.search` (search_service.py lines 65-96).
`callDefault i` is attempt `i`'s default-backend call, `callLite` the single
lite-backend fallback attempted only when attempt 0 returns empty; an
exception anywhere in an attempt skips to the next attempt. -/
def searchRetry (callDefault : Nat → CallOutcome) (callLite : CallOutcome) :
    Nat → Nat → List RawResult
  | _, 0 => []
  | attempt, rem + 1 =>
    match callDefault attempt with
    | CallOutcome.ok results =>
      if results ≠ [] then validate_results results
      else if attempt = 0 then
        match callLite with
        | CallOutcome.ok results2 =>
          if results2 ≠ [] then validate_results results2
          else searchRetry callDefault callLite (attempt + 1) rem
        | CallOutcome.raise => searchRetry callDefault callLite (attempt + 1) rem
      else searchRetry callDefault callLite (attempt + 1) rem
    | CallOutcome.raise => searchRetry callDefault callLite (attempt + 1) rem

/-- `SearchService.search` (search_service.py lines 39-96): unavailable or
disabled short-circuits to `[]`, otherwise the retry loop runs
`SEARCH_RETRY_ATTEMPTS` attempts and falls through to `[]`. -/
def search_model (available : Bool) (callDefault : Nat → CallOutcome)
    (callLite : CallOutcome) : List RawResult :=
  if available then searchRetry callDefault callLite 0 SEARCH_RETRY_ATTEMPTS
  else []

/-- `SearchService.format_results_for_prompt` (search_service.py
lines 134-155). -/
def format_results_for_prompt (results : List RawResult) : String :=
  if results.isEmpty then "No search results available."
  else
    let blocks := (results.enumFrom 1).map (fun p =>
      ["[Source " ++ toString p.1 ++ "]",
       "Title: " ++ p.2.title,
       "URL: " ++ p.2.href,
       "Content: " ++ p.2.body,
       ""])
    String.intercalate "\n"
      (["=== WEB SEARCH RESULTS ===\n"] ++ blocks.flatten ++ ["=== END SEARCH RESULTS ==="])

/-- `SearchService.extract_sources_for_response` (search_service.py
lines 157-169). -/
def extract_sources_for_response (results : List RawResult) : List SourceInfo :=
  results.map (fun r => SourceInfo.mk r.title r.href (strTake r.body 200))

/-! ## ChatManager.prepare_prompt (chat_manager.py lines 179-227) -/

/-- The three search-related locals of `prepare_prompt`
(chat_manager.py lines 201-215). -/
structure SearchDecision where
  search_results : Option String
  sources : Option (List SourceInfo)
  used_search : Bool
deriving Repr

/-- `max_tokens or config.MAX_CONTEXT_TOKENS` (chat_manager.py line 218):
Python `or` also replaces an explicit 0. -/
def effectiveMaxCtx (max_tokens : Option Nat) : Nat :=
  match max_tokens with
  | some n => if n = 0 then MAX_CONTEXT_TOKENS else n
  | none => MAX_CONTEXT_TOKENS

/-- Everything `prepare_prompt` returns, plus the updated store. -/
structure PrepareOutcome where
  store : ConversationStore
  prompt : String
  token_count : Nat
  sources : Option (List SourceInfo)
  used_search : Bool
deriving Repr

/-- `ChatManager.prepare_prompt` (chat_manager.py lines 179-227).  The codec
is the parameter `count`; the search service is the parameter `searchFn`
(already folded over its retry loop, returning validated results). -/
def prepare_prompt (count : String → Nat) (searchFn : String → List RawResult)
    (st : ConversationStore) (session_id : String)
    (new_messages : List ChatMessage) (max_tokens : Option Nat) (now : Nat) :
    PrepareOutcome :=
  let got := st.get session_id
  let history := got.2 ++ new_messages
  let st2 := new_messages.foldl (fun s m => s.add_message session_id m now) got.1
  let last_user_msg := (new_messages.filter (fun m => m.role = "user")).getLast?
  let dec : SearchDecision :=
    match last_user_msg with
    | some m =>
      if should_search m.content then
        let results := searchFn m.content
        if results ≠ [] then
          SearchDecision.mk (some (format_results_for_prompt results))
            (some (extract_sources_for_response results)) true
        else SearchDecision.mk none none false
      else SearchDecision.mk none none false
    | none => SearchDecision.mk none none false
  let max_ctx := effectiveMaxCtx max_tokens
  let truncated := truncate_messages count history max_ctx
  let prompt := build_prompt truncated dec.search_results
  PrepareOutcome.mk st2 prompt (count prompt) dec.sources dec.used_search

/-! ## ModelService decoding engine (model_service.py) -/

/-- Python slice `l[s:]` with a possibly negative start. -/
def pySliceFrom (l : List Nat) (start : Int) : List Nat :=
  if start < 0 then l.drop (max 0 ((l.length : Int) + start)).toNat
  else l.drop start.toNat

/-- The prompt-level truncation of `generate` / `generate_stream`
(model_service.py lines 131-133 and 199-201):
`if len(ids) > max_context - max_tokens: ids = ids[-(max_context - max_tokens):]`.
Note Python `-(0) == 0`, so the slice keeps the whole list when
`max_tokens == max_context`. -/
def truncatePromptIds (ids : List Nat) (max_context max_tokens : Nat) : List Nat :=
  let k : Int := (max_context : Int) - (max_tokens : Int)
  if (ids.length : Int) > k then pySliceFrom ids (-k) else ids

/-- Python `generated_ids[-50:]`: the ids whose scores the repetition
penalty adjusts. -/
def recentIds (generated : List Nat) : List Nat :=
  generated.drop (generated.length - 50)

/-- `ModelService._apply_repetition_penalty` (model_service.py lines 85-95):
for each distinct recently generated id, divide its (positive) score by the
penalty or multiply a non-positive score by it. -/
def apply_repetition_penalty (penalty : ℚ) (logits : List ℚ)
    (generated : List Nat) : List ℚ :=
  if generated = [] ∨ penalty = 1 then logits
  else logits.mapIdx (fun i x =>
    if i ∈ recentIds generated then
      (if x > 0 then x / penalty else x * penalty)
    else x)

/-- Index of the first maximal element (loop form), as `torch.argmax`
returns the first occurrence of the maximum. -/
def argmaxGo : List ℚ → ℚ → Nat → Nat → Nat
  | [], _, best, _ => best
  | y :: ys, m, best, i => if y > m then argmaxGo ys y i (i + 1) else argmaxGo ys m best (i + 1)

/-- `torch.argmax` over a score list: first index of the maximum. -/
def argmaxIdx : List ℚ → Nat
  | [] => 0
  | x :: xs => argmaxGo xs x 0 1

/-- `torch.softmax` over rational scores, with the exponential supplied as
an oracle `exp` (the real exponential is strictly monotone and positive). -/
def softmaxQ (exp : ℚ → ℚ) (l : List ℚ) : List ℚ :=
  l.map (fun x => exp x / (l.map exp).sum)

/-- One token selection of the decoding loop (model_service.py
lines 143-162): sanitize is the identity on rationals, then the repetition
penalty; with `temperature > 0` the (scaled, nucleus-filtered) distribution
is sampled by the random `sampler` oracle; with `temperature = 0` the token
is the argmax of `softmax` of the penalty-adjusted, unscaled scores. -/
def selectToken (exp : ℚ → ℚ) (sampler : List ℚ → ℚ → Nat)
    (temperature top_p penalty : ℚ) (logits : List ℚ) (generated : List Nat) :
    Nat :=
  let adjusted := apply_repetition_penalty penalty logits generated
  if temperature > 0 then
    sampler (adjusted.map (fun x => x / temperature)) top_p
  else argmaxIdx (softmaxQ exp adjusted)

/-- One event of the streaming generator:
`(token_text, is_done, prompt_tokens, completion_count)`. -/
structure StreamEvent where
  text : String
  is_done : Bool
  prompt_tokens : Nat
  completion_count : Nat
deriving DecidableEq, Repr

/-- The generation loop of `ModelService.generate` (model_service.py
lines 138-170), with the composed scoring/sampling step as the oracle
`step : context ids → generated ids → next token`.  Returns the generated
ids; stops at EOS or after `max_tokens` steps. -/
def generateLoop (step : List Nat → List Nat → Nat) (eos block_size : Nat) :
    Nat → List Nat → List Nat → List Nat
  | 0, _, generated => generated
  | fuel + 1, idx, generated =>
    let tok := step (idx.drop (idx.length - block_size)) generated
    if tok = eos then generated
    else generateLoop step eos block_size fuel (idx ++ [tok]) (generated ++ [tok])

/-- `ModelService._clean_response` (model_service.py lines 97-107): cut at
the first format-leakage marker, collapse whitespace runs, trim. -/
def clean_response (text : String) : String :=
  let markers := ["### Instruction:", "### Response:", "User:", "Assistant:"]
  let cut := markers.foldl (fun t marker =>
    if strContains t marker then (t.splitOn marker).headD "" else t) text
  (String.intercalate " " ((cut.split Char.isWhitespace).filter (fun s => !(s = "")))).trim

/-- `ModelService.generate` (model_service.py lines 109-175) downstream of
encoding: token-level truncation, the decoding loop, decode and clean.
Returns `(generated_text, prompt_tokens, completion_tokens)`. -/
def generate (step : List Nat → List Nat → Nat) (decode : List Nat → String)
    (eos block_size max_context max_tokens : Nat) (prompt_ids : List Nat) :
    String × Nat × Nat :=
  let input_ids := truncatePromptIds prompt_ids max_context max_tokens
  let generated := generateLoop step eos block_size max_tokens input_ids []
  (clean_response (decode generated), prompt_ids.length, generated.length)

/-- The loop of `ModelService.generate_stream` (model_service.py
lines 206-243): a token event per accepted token, a single empty-text
terminal event at EOS or when the step budget is exhausted (the `for`/`else`
clause). -/
def generateStreamLoop (step : List Nat → List Nat → Nat)
    (decode1 : Nat → String) (eos block_size prompt_tokens : Nat) :
    Nat → List Nat → List Nat → List StreamEvent
  | 0, _, generated => [StreamEvent.mk "" true prompt_tokens generated.length]
  | fuel + 1, idx, generated =>
    let tok := step (idx.drop (idx.length - block_size)) generated
    if tok = eos then [StreamEvent.mk "" true prompt_tokens generated.length]
    else
      StreamEvent.mk (decode1 tok) false prompt_tokens (generated ++ [tok]).length
        :: generateStreamLoop step decode1 eos block_size prompt_tokens fuel
            (idx ++ [tok]) (generated ++ [tok])

/-- `ModelService.generate_stream` (model_service.py lines 177-243)
downstream of encoding. -/
def generate_stream (step : List Nat → List Nat → Nat) (decode1 : Nat → String)
    (eos block_size max_context max_tokens : Nat) (prompt_ids : List Nat) :
    List StreamEvent :=
  let input_ids := truncatePromptIds prompt_ids max_context max_tokens
  generateStreamLoop step decode1 eos block_size prompt_ids.length max_tokens
    input_ids []

/-! ### Basic facts about the session-map primitives -/

theorem sessionKeys_append (l1 l2 : Sessions) :
    sessionKeys (l1 ++ l2) = sessionKeys l1 ++ sessionKeys l2 :=
  List.map_append _ _ _

theorem lookupSession_eq_none_iff (s : Sessions) (id : String) :
    lookupSession s id = none ↔ id ∉ sessionKeys s := by
  induction s with
  | nil => simp [lookupSession, sessionKeys]
  | cons hd tl ih =>
    obtain ⟨k, v⟩ := hd
    by_cases h : k = id
    · subst h
      simp [lookupSession, sessionKeys]
    · have hne : id ≠ k := fun hh => h hh.symm
      simp [lookupSession, sessionKeys, h, hne, ih]

theorem lookupSession_isSome_iff (s : Sessions) (id : String) :
    (lookupSession s id).isSome = true ↔ id ∈ sessionKeys s := by
  constructor
  · intro h
    by_contra hmem
    rw [← lookupSession_eq_none_iff] at hmem
    simp [hmem] at h
  · intro hmem
    cases hlk : lookupSession s id with
    | none => exact absurd hmem ((lookupSession_eq_none_iff s id).mp hlk)
    | some v => rfl

theorem length_appendToSession (s : Sessions) (id : String) (m : ChatMessage) :
    (appendToSession s id m).length = s.length := by
  induction s with
  | nil => rfl
  | cons hd tl ih =>
    obtain ⟨k, v⟩ := hd
    by_cases h : k = id <;> simp [appendToSession, h, ih]

theorem sessionKeys_appendToSession (s : Sessions) (id : String) (m : ChatMessage) :
    sessionKeys (appendToSession s id m) = sessionKeys s := by
  induction s with
  | nil => rfl
  | cons hd tl ih =>
    obtain ⟨k, v⟩ := hd
    by_cases h : k = id
    · simp [appendToSession, sessionKeys, h]
    · simp only [appendToSession, if_neg h, sessionKeys, List.map_cons]
      rw [show List.map Prod.fst (appendToSession tl id m) = sessionKeys (appendToSession tl id m) from rfl, ih]
      rfl

theorem sessionKeys_removeSession (s : Sessions) (id : String) :
    sessionKeys (removeSession s id) = (sessionKeys s).erase id := by
  induction s with
  | nil => rfl
  | cons hd tl ih =>
    obtain ⟨k, v⟩ := hd
    by_cases h : k = id
    · subst h; simp [removeSession, sessionKeys, List.erase_cons]
    · simp [removeSession, sessionKeys, List.erase_cons, h, Ne.symm h]
      simpa [sessionKeys] using ih

theorem length_removeSession_of_mem (s : Sessions) (id : String)
    (h : id ∈ sessionKeys s) :
    (removeSession s id).length + 1 = s.length := by
  have := sessionKeys_removeSession s id
  have hlen : (sessionKeys (removeSession s id)).length + 1 = (sessionKeys s).length := by
    rw [this]
    exact List.length_erase_add_one h
  simpa [sessionKeys] using hlen

theorem length_moveToEnd (s : Sessions) (id : String) :
    (moveToEnd s id).length = s.length := by
  unfold moveToEnd
  cases hlk : lookupSession s id with
  | none => rfl
  | some v =>
    have hmem : id ∈ sessionKeys s := by
      rw [← lookupSession_isSome_iff, hlk]; rfl
    have := length_removeSession_of_mem s id hmem
    simp [← this]

theorem sessionKeys_moveToEnd_of_mem (s : Sessions) (id : String)
    (v : List ChatMessage) (h : lookupSession s id = some v) :
    sessionKeys (moveToEnd s id) = (sessionKeys s).erase id ++ [id] := by
  unfold moveToEnd
  rw [h, sessionKeys_append, sessionKeys_removeSession]
  rfl

theorem length_removeSession_le (s : Sessions) (id : String) :
    (removeSession s id).length ≤ s.length := by
  induction s with
  | nil => simp [removeSession]
  | cons hd tl ih =>
    obtain ⟨k, v⟩ := hd
    by_cases h : k = id
    · simp only [removeSession, if_pos h, List.length_cons]
      omega
    · simp only [removeSession, if_neg h, List.length_cons]
      omega

theorem sessionKeys_tail (s : Sessions) :
    sessionKeys s.tail = (sessionKeys s).tail := by
  cases s with
  | nil => rfl
  | cons hd tl => rfl

theorem lookupSession_append_right (l1 l2 : Sessions) (id : String)
    (h : id ∉ sessionKeys l1) :
    lookupSession (l1 ++ l2) id = lookupSession l2 id := by
  induction l1 with
  | nil => rfl
  | cons hd tl ih =>
    obtain ⟨k, v⟩ := hd
    have hk : ¬k = id := by
      intro hkid
      exact h (by simp [sessionKeys, hkid])
    have htl : id ∉ sessionKeys tl := by
      intro hm
      exact h (by simp [sessionKeys] at hm ⊢; exact Or.inr hm)
    simp [lookupSession, hk, ih htl]

theorem removeSession_append_of_not_mem (l1 l2 : Sessions) (id : String)
    (h : id ∉ sessionKeys l1) :
    removeSession (l1 ++ l2) id = l1 ++ removeSession l2 id := by
  induction l1 with
  | nil => rfl
  | cons hd tl ih =>
    obtain ⟨k, v⟩ := hd
    have hk : ¬k = id := by
      intro hkid
      exact h (by simp [sessionKeys, hkid])
    have htl : id ∉ sessionKeys tl := by
      intro hm
      exact h (by simp [sessionKeys] at hm ⊢; exact Or.inr hm)
    simp [removeSession, hk, ih htl]

theorem appendToSession_append_of_not_mem (l1 l2 : Sessions) (id : String)
    (m : ChatMessage) (h : id ∉ sessionKeys l1) :
    appendToSession (l1 ++ l2) id m = l1 ++ appendToSession l2 id m := by
  induction l1 with
  | nil => rfl
  | cons hd tl ih =>
    obtain ⟨k, v⟩ := hd
    have hk : ¬k = id := by
      intro hkid
      exact h (by simp [sessionKeys, hkid])
    have htl : id ∉ sessionKeys tl := by
      intro hm
      exact h (by simp [sessionKeys] at hm ⊢; exact Or.inr hm)
    simp [appendToSession, hk, ih htl]

/-! ### Behaviour of the store operations -/

theorem get_fst_length (st : ConversationStore) (id : String) :
    (st.get id).1.sessions.length = st.sessions.length := by
  unfold ConversationStore.get
  cases hlk : lookupSession st.sessions id with
  | none => rfl
  | some v => simp [length_moveToEnd]

theorem clear_fst_length_le (st : ConversationStore) (id : String) :
    (st.clear id).1.sessions.length ≤ st.sessions.length := by
  unfold ConversationStore.clear
  by_cases h : (lookupSession st.sessions id).isSome = true
  · simp [h, length_removeSession_le]
  · simp [h]

theorem applyOp_max_sessions (st : ConversationStore) (op : StoreOp) :
    (applyOp st op).max_sessions = st.max_sessions := by
  cases op with
  | get id =>
    show (st.get id).1.max_sessions = _
    unfold ConversationStore.get
    cases lookupSession st.sessions id <;> rfl
  | add id m now => rfl
  | clear id =>
    show (st.clear id).1.max_sessions = _
    unfold ConversationStore.clear
    by_cases h : (lookupSession st.sessions id).isSome = true <;> simp [h]

theorem add_message_length_le (st : ConversationStore) (id : String)
    (m : ChatMessage) (now : Nat) (hmax : 1 ≤ st.max_sessions)
    (hlen : st.sessions.length ≤ st.max_sessions) :
    (st.add_message id m now).sessions.length ≤ st.max_sessions := by
  unfold ConversationStore.add_message
  by_cases hp : (lookupSession st.sessions id).isSome = true
  · simp only [hp, if_pos]
    rw [length_appendToSession, length_moveToEnd]
    exact hlen
  · simp only [hp]
    rw [length_appendToSession, length_moveToEnd]
    by_cases hge : st.sessions.length ≥ st.max_sessions
    · have hlen' : st.sessions.length = st.max_sessions := le_antisymm hlen hge
      have hne : st.sessions ≠ [] := by
        intro hnil
        rw [hnil] at hlen'
        simp at hlen'
        omega
      simp only [if_pos hge, ite_true, List.length_append]
      have : st.sessions.tail.length = st.sessions.length - 1 := List.length_tail _
      simp [this]
      omega
    · simp only [if_neg hge, List.length_append]
      simp
      omega

/-- Invariant preserved by each operation: capacity respected. -/
theorem applyOp_length_le (st : ConversationStore) (op : StoreOp)
    (hmax : 1 ≤ st.max_sessions)
    (hlen : st.sessions.length ≤ st.max_sessions) :
    (applyOp st op).sessions.length ≤ st.max_sessions := by
  cases op with
  | get id => rw [show (applyOp st (StoreOp.get id)).sessions.length = (st.get id).1.sessions.length from rfl, get_fst_length]; exact hlen
  | add id m now => exact add_message_length_le st id m now hmax hlen
  | clear id => exact le_trans (clear_fst_length_le st id) hlen

theorem applyOps_max_sessions (st : ConversationStore) (ops : List StoreOp) :
    (applyOps st ops).max_sessions = st.max_sessions := by
  induction ops generalizing st with
  | nil => rfl
  | cons op rest ih =>
    show (applyOps (applyOp st op) rest).max_sessions = _
    rw [ih (applyOp st op), applyOp_max_sessions]

theorem applyOps_length_le (st : ConversationStore) (ops : List StoreOp)
    (hmax : 1 ≤ st.max_sessions)
    (hlen : st.sessions.length ≤ st.max_sessions) :
    (applyOps st ops).sessions.length ≤ (applyOps st ops).max_sessions := by
  induction ops generalizing st with
  | nil => exact hlen
  | cons op rest ih =>
    have h1 := applyOp_length_le st op hmax hlen
    have h2 := applyOp_max_sessions st op
    show (applyOps (applyOp st op) rest).sessions.length ≤ _
    exact ih (applyOp st op) (h2 ▸ hmax) (h2 ▸ h1)

/-- At capacity, adding a message for an unseen id evicts exactly the
least-recently-touched session (the head of the recency order). -/
theorem add_message_evicts_lru (st : ConversationStore) (id : String)
    (m : ChatMessage) (now : Nat)
    (habs : id ∉ sessionKeys st.sessions)
    (hcap : st.sessions.length = st.max_sessions)
    (_hmax : 1 ≤ st.max_sessions) :
    sessionKeys (st.add_message id m now).sessions
      = (sessionKeys st.sessions).tail ++ [id] := by
  have hnone : lookupSession st.sessions id = none :=
    (lookupSession_eq_none_iff _ _).mpr habs
  have hp : ¬(lookupSession st.sessions id).isSome = true := by
    rw [hnone]; simp
  have hge : st.sessions.length ≥ st.max_sessions := le_of_eq hcap.symm
  unfold ConversationStore.add_message
  simp only [hnone, Option.isSome_none, Bool.false_eq_true, if_false]
  rw [if_pos hge]
  have htl : id ∉ sessionKeys st.sessions.tail := by
    intro hm
    rw [sessionKeys_tail] at hm
    exact habs (List.tail_subset _ hm)
  have hlk0 : lookupSession (st.sessions.tail ++ [(id, [])]) id = some [] := by
    rw [lookupSession_append_right _ _ _ htl]
    simp [lookupSession]
  show sessionKeys (appendToSession (moveToEnd (st.sessions.tail ++ [(id, [])]) id) id _) = _
  unfold moveToEnd
  rw [hlk0]
  rw [removeSession_append_of_not_mem _ _ _ htl]
  rw [show (removeSession [(id, ([] : List ChatMessage))] id) = [] by simp [removeSession]]
  rw [List.append_nil]
  rw [appendToSession_append_of_not_mem _ _ _ _ htl]
  simp only [show appendToSession [(id, ([] : List ChatMessage))] id (backfillTimestamp m now)
      = [(id, [backfillTimestamp m now])] by simp [appendToSession]]
  rw [sessionKeys_append, sessionKeys_tail]
  rfl

/-- `get` on a present id touches it: the id moves to the
most-recently-used end and the stored history is returned unchanged. -/
theorem get_touches_recency (st : ConversationStore) (id : String)
    (v : List ChatMessage) (h : lookupSession st.sessions id = some v) :
    sessionKeys (st.get id).1.sessions = (sessionKeys st.sessions).erase id ++ [id]
    ∧ (st.get id).2 = v := by
  unfold ConversationStore.get
  rw [h]
  exact ⟨sessionKeys_moveToEnd_of_mem st.sessions id v h, rfl⟩

/-- `add_message` always leaves the touched id at the most-recently-used end. -/
theorem add_message_touches_recency (st : ConversationStore) (id : String)
    (m : ChatMessage) (now : Nat) :
    (sessionKeys (st.add_message id m now).sessions).getLast? = some id := by
  unfold ConversationStore.add_message
  by_cases hp : (lookupSession st.sessions id).isSome = true
  · obtain ⟨v, hv⟩ := Option.isSome_iff_exists.mp hp
    simp only [hp, ite_true]
    rw [sessionKeys_appendToSession, sessionKeys_moveToEnd_of_mem _ _ _ hv]
    exact List.getLast?_concat _
  · simp only [hp, ite_false]
    have hnone : lookupSession st.sessions id = none := by
      cases hlk : lookupSession st.sessions id with
      | none => rfl
      | some v => rw [hlk] at hp; simp at hp
    have habs : id ∉ sessionKeys st.sessions :=
      (lookupSession_eq_none_iff _ _).mp hnone
    set s1 := if st.sessions.length ≥ st.max_sessions then st.sessions.tail
              else st.sessions with hs1
    have hs1sub : id ∉ sessionKeys s1 := by
      rw [hs1]
      by_cases hge : st.sessions.length ≥ st.max_sessions
      · simp only [if_pos hge]
        intro hm
        rw [sessionKeys_tail] at hm
        exact habs (List.tail_subset _ hm)
      · simp only [if_neg hge]
        exact habs
    have hlk0 : lookupSession (s1 ++ [(id, [])]) id = some [] := by
      rw [lookupSession_append_right _ _ _ hs1sub]
      simp [lookupSession]
    simp only [Bool.false_eq_true, if_false]
    rw [sessionKeys_appendToSession, sessionKeys_moveToEnd_of_mem _ _ _ hlk0]
    exact List.getLast?_concat _

theorem lookupSession_append_left (l1 l2 : Sessions) (id : String)
    (v : List ChatMessage) (h : lookupSession l1 id = some v) :
    lookupSession (l1 ++ l2) id = some v := by
  induction l1 with
  | nil => simp [lookupSession] at h
  | cons hd tl ih =>
    obtain ⟨k, w⟩ := hd
    by_cases hk : k = id
    · simp only [lookupSession, if_pos hk] at h ⊢
      exact h
    · simp only [lookupSession, if_neg hk] at h ⊢
      exact ih h

theorem lookupSession_removeSession_ne (s : Sessions) (id id' : String)
    (h : id' ≠ id) :
    lookupSession (removeSession s id) id' = lookupSession s id' := by
  induction s with
  | nil => rfl
  | cons hd tl ih =>
    obtain ⟨k, v⟩ := hd
    by_cases hk : k = id
    · subst hk
      simp [removeSession, lookupSession, Ne.symm h]
    · by_cases hk' : k = id'
      · simp [removeSession, hk, lookupSession, hk', h]
      · simp [removeSession, hk, lookupSession, hk', ih]

theorem lookupSession_appendToSession_ne (s : Sessions) (id id' : String)
    (m : ChatMessage) (h : id' ≠ id) :
    lookupSession (appendToSession s id m) id' = lookupSession s id' := by
  induction s with
  | nil => rfl
  | cons hd tl ih =>
    obtain ⟨k, v⟩ := hd
    by_cases hk : k = id
    · subst hk
      simp [appendToSession, lookupSession, Ne.symm h]
    · by_cases hk' : k = id'
      · simp [appendToSession, hk, lookupSession, hk', h]
      · simp [appendToSession, hk, lookupSession, hk', ih]

theorem lookupSession_appendToSession_self (s : Sessions) (id : String)
    (m : ChatMessage) :
    lookupSession (appendToSession s id m) id
      = (lookupSession s id).map (fun v => v ++ [m]) := by
  induction s with
  | nil => rfl
  | cons hd tl ih =>
    obtain ⟨k, v⟩ := hd
    by_cases hk : k = id
    · simp [appendToSession, hk, lookupSession]
    · simp [appendToSession, hk, lookupSession, ih]

/-! ### The frozen claims about the session store -/

/-- C4.  After any sequence of `get`, `add_message` and `clear` operations on
a store of capacity `maxSessions ≥ 1`, at most `maxSessions` sessions are
held; adding a first message for an unseen id at capacity evicts exactly the
least-recently-touched session (the head of the recency order); `get` on a
present id and `add_message` both move the id to the most-recently-touched
end. -/
theorem claim_store_lru_bound (maxSessions : Nat) (hmax : 1 ≤ maxSessions) :
    (∀ ops : List StoreOp,
        (applyOps (ConversationStore.empty maxSessions) ops).sessions.length
          ≤ maxSessions)
    ∧ (∀ st : ConversationStore, ∀ id : String, ∀ m : ChatMessage, ∀ now : Nat,
        st.max_sessions = maxSessions →
        id ∉ sessionKeys st.sessions → st.sessions.length = maxSessions →
        sessionKeys (st.add_message id m now).sessions
          = (sessionKeys st.sessions).tail ++ [id])
    ∧ (∀ st : ConversationStore, ∀ id : String, ∀ v : List ChatMessage,
        lookupSession st.sessions id = some v →
        sessionKeys (st.get id).1.sessions
          = (sessionKeys st.sessions).erase id ++ [id] ∧ (st.get id).2 = v)
    ∧ (∀ st : ConversationStore, ∀ id : String, ∀ m : ChatMessage, ∀ now : Nat,
        (sessionKeys (st.add_message id m now).sessions).getLast? = some id) := by
  refine ⟨?_, ?_, ?_, ?_⟩
  · intro ops
    have h := applyOps_length_le (ConversationStore.empty maxSessions) ops
      (by exact hmax) (by simp [ConversationStore.empty])
    rw [applyOps_max_sessions] at h
    exact h
  · intro st id m now hms habs hcap
    exact add_message_evicts_lru st id m now habs (hms ▸ hcap) (hms ▸ hmax)
  · intro st id v h
    exact get_touches_recency st id v h
  · intro st id m now
    exact add_message_touches_recency st id m now

/-- Witness for C4 at capacity 1000 and the empty operation sequence. -/
theorem claim_store_lru_bound_witness :
    (applyOps (ConversationStore.empty 1000) []).sessions.length ≤ 1000 :=
  (claim_store_lru_bound 1000 (by norm_num)).1 []

/-- C9.  `add_message` on a session id already present never evicts: the
multiset of stored ids is unchanged (so is the session count); every other
session's history is untouched; the touched session gains exactly the new
message (timestamp backfilled) at the end. -/
theorem claim_add_message_present_frame (st : ConversationStore) (id : String)
    (m : ChatMessage) (now : Nat) (v : List ChatMessage)
    (hnodup : (sessionKeys st.sessions).Nodup)
    (h : lookupSession st.sessions id = some v) :
    (sessionKeys (st.add_message id m now).sessions).Perm (sessionKeys st.sessions)
    ∧ (st.add_message id m now).sessions.length = st.sessions.length
    ∧ (∀ id' : String, id' ≠ id →
        lookupSession (st.add_message id m now).sessions id'
          = lookupSession st.sessions id')
    ∧ lookupSession (st.add_message id m now).sessions id
        = some (v ++ [backfillTimestamp m now]) := by
  have hp : (lookupSession st.sessions id).isSome = true := by rw [h]; rfl
  have hmem : id ∈ sessionKeys st.sessions :=
    (lookupSession_isSome_iff _ _).mp hp
  have hsess : (st.add_message id m now).sessions
      = appendToSession (removeSession st.sessions id ++ [(id, v)]) id
          (backfillTimestamp m now) := by
    unfold ConversationStore.add_message
    simp only [hp, ite_true]
    unfold moveToEnd
    rw [h]
  have hnotr : id ∉ sessionKeys (removeSession st.sessions id) := by
    rw [sessionKeys_removeSession]
    intro hin
    exact ((List.Nodup.mem_erase_iff hnodup).mp hin).1 rfl
  refine ⟨?_, ?_, ?_, ?_⟩
  · rw [hsess, sessionKeys_appendToSession, sessionKeys_append,
      sessionKeys_removeSession, show sessionKeys [(id, v)] = [id] from rfl]
    exact (List.perm_append_singleton _ _).trans (List.perm_cons_erase hmem).symm
  · rw [hsess, length_appendToSession, List.length_append]
    have := length_removeSession_of_mem st.sessions id hmem
    simp only [List.length_cons, List.length_nil]
    omega
  · intro id' hne
    rw [hsess, lookupSession_appendToSession_ne _ _ _ _ hne]
    cases hr : lookupSession (removeSession st.sessions id) id' with
    | some w =>
      rw [lookupSession_append_left _ _ _ _ hr]
      rw [← lookupSession_removeSession_ne st.sessions id id' hne, hr]
    | none =>
      rw [lookupSession_append_right _ _ _
        ((lookupSession_eq_none_iff _ _).mp hr)]
      rw [← lookupSession_removeSession_ne st.sessions id id' hne, hr]
      simp [lookupSession, Ne.symm hne]
  · rw [hsess, lookupSession_appendToSession_self,
      lookupSession_append_right _ _ _ hnotr]
    simp [lookupSession]

/-- Witness for C9: a one-session store at capacity 1, touched again. -/
theorem claim_add_message_present_frame_witness :
    lookupSession ((ConversationStore.mk [("a", [])] 1).add_message "a"
        (ChatMessage.mk "user" "hi" none none) 0).sessions "a"
      = some [ChatMessage.mk "user" "hi" (some 0) none] :=
  (claim_add_message_present_frame (ConversationStore.mk [("a", [])] 1) "a"
    (ChatMessage.mk "user" "hi" none none) 0 []
    (by simp [sessionKeys]) (by simp [lookupSession])).2.2.2

/-! ### Truncation: the greedy suffix scan -/

theorem costSum_cons (count : String → Nat) (m : ChatMessage)
    (l : List ChatMessage) :
    costSum count (m :: l) = msgCost count m + costSum count l := by
  simp [costSum]

theorem costSum_reverse (count : String → Nat) (l : List ChatMessage) :
    costSum count l.reverse = costSum count l := by
  simp [costSum, List.map_reverse, List.sum_reverse]

/-- Full characterisation of the backward greedy scan: it returns a prefix
of the (reversed) input, the running total stays within `available` unless
nothing was selected, and it stops exactly at the first element that would
overflow. -/
theorem selectRev_spec (count : String → Nat) (avail : Int)
    (l : List ChatMessage) (cur : Int) :
    ∃ rest : List ChatMessage,
      l = selectRev count avail l cur ++ rest
      ∧ (selectRev count avail l cur = [] ∨
          (costSum count (selectRev count avail l cur) : Int) + cur ≤ avail)
      ∧ (∀ m' rest', rest = m' :: rest' →
          (costSum count (selectRev count avail l cur) : Int) + cur
            + (msgCost count m' : Int) > avail) := by
  induction l generalizing cur with
  | nil =>
    refine ⟨[], rfl, Or.inl rfl, ?_⟩
    intro m' r' h
    cases h
  | cons m l' ih =>
    by_cases hfit : cur + (msgCost count m : Int) ≤ avail
    · obtain ⟨rest, heq, hbd, hstop⟩ := ih (cur + (msgCost count m : Int))
      refine ⟨rest, ?_, ?_, ?_⟩
      · simp only [selectRev, if_pos hfit, List.cons_append]
        rw [← heq]
      · right
        simp only [selectRev, if_pos hfit, costSum_cons]
        rcases hbd with hnil | hle
        · rw [hnil]
          simp only [costSum, List.map_nil, List.sum_nil, Nat.add_zero]
          omega
        · push_cast at hle ⊢
          omega
      · intro m' rest' hr
        have := hstop m' rest' hr
        simp only [selectRev, if_pos hfit, costSum_cons]
        push_cast at this ⊢
        omega
    · refine ⟨m :: l', ?_, Or.inl ?_, ?_⟩
      · simp only [selectRev, if_neg hfit, List.nil_append]
      · simp only [selectRev, if_neg hfit]
      · intro m' rest' hr
        cases hr
        simp only [selectRev, if_neg hfit, costSum, List.map_nil, List.sum_nil]
        omega

/-- The retained messages' role+content cost never exceeds the budget minus
the 200-token response reserve. -/
theorem truncate_messages_cost_le (count : String → Nat)
    (messages : List ChatMessage) (budget : Nat) :
    costSum count (truncate_messages count messages budget) ≤ budget - 200 := by
  unfold truncate_messages
  by_cases hemp : messages.isEmpty
  · simp only [hemp, if_pos]
    rw [List.isEmpty_iff.mp hemp]
    simp [costSum]
  · simp only [hemp, Bool.false_eq_true, if_false]
    obtain ⟨rest, heq, hbd, hstop⟩ :=
      selectRev_spec count ((budget : Int) - 200) messages.reverse 0
    rw [costSum_reverse]
    rcases hbd with hnil | hle
    · rw [hnil]
      simp [costSum]
    · omega

/-- C5.  `_truncate_messages` returns a chronologically ordered suffix of
the input: the dropped messages are an initial segment, the kept messages'
cumulative role+content cost is at most `budget - 200`, and scanning from
most recent backward stops exactly at the first message that would exceed
the remaining budget; with three messages of cost 300 each and budget 500
only the most recent survives. -/
theorem claim_truncate_messages_greedy :
    (∀ (count : String → Nat) (messages : List ChatMessage) (budget : Nat),
      ∃ dropped : List ChatMessage,
        messages = dropped ++ truncate_messages count messages budget
        ∧ costSum count (truncate_messages count messages budget) ≤ budget - 200
        ∧ ∀ dInit (lastM : ChatMessage), dropped = dInit ++ [lastM] →
            (costSum count (truncate_messages count messages budget) : Int)
              + (msgCost count lastM : Int) > (budget : Int) - 200)
    ∧ truncate_messages (fun _ => 300)
        [ChatMessage.mk "user" "a" none none, ChatMessage.mk "user" "b" none none,
         ChatMessage.mk "user" "c" none none] 500
      = [ChatMessage.mk "user" "c" none none] := by
  constructor
  · intro count messages budget
    by_cases hemp : messages.isEmpty
    · refine ⟨[], ?_, truncate_messages_cost_le count messages budget, ?_⟩
      · rw [List.isEmpty_iff.mp hemp]
        simp [truncate_messages]
      · intro dInit lastM h
        exact absurd h.symm (List.append_ne_nil_of_right_ne_nil _ (by simp))
    · obtain ⟨rest, heq, hbd, hstop⟩ :=
        selectRev_spec count ((budget : Int) - 200) messages.reverse 0
      have htr : truncate_messages count messages budget
          = (selectRev count ((budget : Int) - 200) messages.reverse 0).reverse := by
        simp [truncate_messages, hemp]
      refine ⟨rest.reverse, ?_, truncate_messages_cost_le count messages budget, ?_⟩
      · rw [htr]
        calc messages = messages.reverse.reverse := (List.reverse_reverse _).symm
          _ = (selectRev count ((budget : Int) - 200) messages.reverse 0 ++ rest).reverse := by
              rw [← heq]
          _ = rest.reverse
              ++ (selectRev count ((budget : Int) - 200) messages.reverse 0).reverse := by
              rw [List.reverse_append]
      · intro dInit lastM h
        have hrest : rest = lastM :: dInit.reverse := by
          have : rest.reverse = dInit ++ [lastM] := h
          calc rest = rest.reverse.reverse := (List.reverse_reverse _).symm
            _ = (dInit ++ [lastM]).reverse := by rw [this]
            _ = lastM :: dInit.reverse := by simp
        have := hstop lastM dInit.reverse hrest
        rw [htr, costSum_reverse]
        omega

  · rfl

/-! ### Prompt construction -/

/-- C3 (the code diverges): with the ordinary two-turn conversation
[user "A", assistant "B", user "C"], the most recent user content "C" does
become the instruction, but the rendered history shows "Assistant: B" before
the chronologically earlier "User: A": each user turn is deferred until the
next user message arrives, so history comes out reordered. -/
theorem claim_history_renders_out_of_order :
    splitInstruction
        [ChatMessage.mk "user" "A" none none,
         ChatMessage.mk "assistant" "B" none none,
         ChatMessage.mk "user" "C" none none]
      = ("C", [ChatMessage.mk "assistant" "B" none none,
               ChatMessage.mk "user" "A" none none])
    ∧ build_prompt
        [ChatMessage.mk "user" "A" none none,
         ChatMessage.mk "assistant" "B" none none,
         ChatMessage.mk "user" "C" none none] none
      = DEFAULT_SYSTEM
        ++ "\n\nPrevious conversation:\nAssistant: B\nUser: A\n\n### Instruction:\nC\n\n### Response:\n" :=
  ⟨rfl, rfl⟩

theorem instructionStep_system (acc : String × List ChatMessage)
    (m : ChatMessage) (h : m.role = "system") : instructionStep acc m = acc := by
  simp [instructionStep, h]

theorem renderHistoryLine_system (m : ChatMessage) (h : m.role = "system") :
    renderHistoryLine m = none := by
  simp [renderHistoryLine, h]

theorem splitInstruction_system_invariant (l1 l2 : List ChatMessage)
    (sys : ChatMessage) (h : sys.role = "system") :
    splitInstruction (l1 ++ sys :: l2) = splitInstruction (l1 ++ l2) := by
  unfold splitInstruction
  rw [List.foldl_append, List.foldl_append]
  simp only [List.foldl_cons, instructionStep_system _ sys h]

theorem build_history_context_system_invariant (l1 l2 : List ChatMessage)
    (sys : ChatMessage) (h : sys.role = "system") :
    build_history_context (l1 ++ sys :: l2) = build_history_context (l1 ++ l2) := by
  have hparts : (l1 ++ sys :: l2).filterMap renderHistoryLine
      = (l1 ++ l2).filterMap renderHistoryLine := by
    simp [List.filterMap_append, List.filterMap_cons, renderHistoryLine_system sys h]
  unfold build_history_context
  by_cases h12 : (l1 ++ l2).isEmpty
  · have h1 : l1 = [] := by
      rcases List.append_eq_nil.mp (List.isEmpty_iff.mp h12) with ⟨a, b⟩
      exact a
    have h2 : l2 = [] := by
      rcases List.append_eq_nil.mp (List.isEmpty_iff.mp h12) with ⟨a, b⟩
      exact b
    subst h1; subst h2
    simp [renderHistoryLine_system sys h]
  · have hne : ¬(l1 ++ sys :: l2).isEmpty = true := by
      simp [List.isEmpty_iff]
    simp only [hne, Bool.false_eq_true, if_false, h12, hparts]

/-- C10.  Messages with role "system" are silently excluded from the
assembled prompt: inserting one anywhere changes neither the
instruction/history split nor the rendered history nor the final prompt;
yet a system message is stored in the session like any other, and its
role+content cost still consumes truncation budget (with constant
per-message cost 300 and budget 800, a system message in the middle
crowds out the older user message). -/
theorem claim_system_messages_excluded :
    (∀ (l1 l2 : List ChatMessage) (sys : ChatMessage) (sr : Option String),
        sys.role = "system" →
        build_prompt (l1 ++ sys :: l2) sr = build_prompt (l1 ++ l2) sr)
    ∧ (∀ (l1 l2 : List ChatMessage) (sys : ChatMessage),
        sys.role = "system" →
        build_history_context (l1 ++ sys :: l2) = build_history_context (l1 ++ l2))
    ∧ (∀ (sys : ChatMessage) (now : Nat), sys.role = "system" →
        lookupSession
            ((ConversationStore.empty 1000).add_message "s" sys now).sessions "s"
          = some [backfillTimestamp sys now])
    ∧ truncate_messages (fun _ => 300)
        [ChatMessage.mk "user" "a" none none,
         ChatMessage.mk "system" "s" none none,
         ChatMessage.mk "user" "b" none none] 800
      = [ChatMessage.mk "system" "s" none none,
         ChatMessage.mk "user" "b" none none] := by
  refine ⟨?_, ?_, ?_, ?_⟩
  · intro l1 l2 sys sr h
    unfold build_prompt
    rw [splitInstruction_system_invariant l1 l2 sys h]
  · intro l1 l2 sys h
    exact build_history_context_system_invariant l1 l2 sys h
  · intro sys now _
    simp [ConversationStore.empty, ConversationStore.add_message, lookupSession,
      moveToEnd, removeSession, appendToSession]
  · rfl

/-! ### prepare_prompt and the token budget -/

/-- When the search service yields no results, `prepare_prompt` takes the
ungrounded path throughout. -/
theorem prepare_prompt_no_results (count : String → Nat)
    (st : ConversationStore) (sid : String) (new_messages : List ChatMessage)
    (mt : Option Nat) (now : Nat) :
    prepare_prompt count (fun _ => []) st sid new_messages mt now
      = PrepareOutcome.mk
          (new_messages.foldl (fun s m => s.add_message sid m now) (st.get sid).1)
          (build_prompt
            (truncate_messages count ((st.get sid).2 ++ new_messages)
              (effectiveMaxCtx mt)) none)
          (count (build_prompt
            (truncate_messages count ((st.get sid).2 ++ new_messages)
              (effectiveMaxCtx mt)) none))
          none false := by
  unfold prepare_prompt
  cases hl : (new_messages.filter (fun m => m.role = "user")).getLast? with
  | none => simp [hl]
  | some m =>
    by_cases hs : should_search m.content
    · simp [hl, hs]
    · simp [hl, hs]

/-- C1 amended: what the 200-token reserve actually bounds is the cumulative
role+content cost of the messages retained by truncation — at most the
effective budget minus 200.  The assembled prompt is that selection rendered
through a template whose fixed text (system preamble, history header,
markers) is not charged against the budget, so the prompt measured size can
exceed the bound. -/
theorem claim_prompt_token_budget_amended :
    ∀ (count : String → Nat) (searchFn : String → List RawResult)
      (st : ConversationStore) (sid : String) (new_messages : List ChatMessage)
      (mt : Option Nat) (now : Nat),
      ∃ sr : Option String,
        (prepare_prompt count searchFn st sid new_messages mt now).prompt
          = build_prompt
              (truncate_messages count ((st.get sid).2 ++ new_messages)
                (effectiveMaxCtx mt)) sr
        ∧ costSum count
            (truncate_messages count ((st.get sid).2 ++ new_messages)
              (effectiveMaxCtx mt))
            ≤ effectiveMaxCtx mt - 200 :=
  fun _count _searchFn _st _sid _new_messages _mt _now =>
    ⟨_, rfl, truncate_messages_cost_le _ _ _⟩

set_option maxRecDepth 20000 in
/-- C1 counterexample: counting tokens as characters, a fresh session with
one 800-character user message passes the 824-budget message scan
(cost 806), but the assembled prompt also carries the 102-character system
preamble and the template markers, totalling 937 > 1024 - 200. -/
theorem claim_prompt_token_budget_counterexample :
    MAX_CONTEXT_TOKENS - 200
      < (prepare_prompt String.length (fun _ => [])
          (ConversationStore.empty 1000) "s"
          [ChatMessage.mk "user" (String.mk (List.replicate 800 'a')) none none]
          none 0).token_count := by
  decide

/-! ### Decoding engine: prompt-id truncation -/

/-- C2 counterexample: at `max_tokens = context_window` the Python slice
`ids[-0:]` keeps the whole prompt, so a 2-id prompt stays 2 ids long while
the claimed bound `context_window - max_tokens` is 0. -/
theorem claim_id_truncation_counterexample :
    (1 : Nat) ≤ 4 ∧ (4 : Nat) ≤ 4
    ∧ truncatePromptIds [1, 2] 4 4 = [1, 2]
    ∧ ¬((truncatePromptIds [1, 2] 4 4).length ≤ 4 - 4) := by
  decide

/-- C2 amended: for `1 ≤ max_tokens < context_window` the retained ids are a
suffix of the encoded prompt of length at most
`context_window - max_tokens`; at `max_tokens = context_window` the entire
encoded prompt is retained instead. -/
theorem claim_id_truncation_suffix :
    (∀ (ids : List Nat) (cw mt : Nat), 1 ≤ mt → mt < cw →
      truncatePromptIds ids cw mt <:+ ids
      ∧ (truncatePromptIds ids cw mt).length ≤ cw - mt)
    ∧ (∀ (ids : List Nat) (cw : Nat), truncatePromptIds ids cw cw = ids) := by
  constructor
  · intro ids cw mt h1 h2
    have hk : (0 : Int) < (cw : Int) - (mt : Int) := by
      have hmt : (mt : Int) < (cw : Int) := by exact_mod_cast h2
      omega
    unfold truncatePromptIds
    by_cases hlen : ((ids.length : Int) > (cw : Int) - (mt : Int))
    · rw [if_pos hlen]
      unfold pySliceFrom
      rw [if_pos (by omega : -((cw : Int) - (mt : Int)) < 0)]
      refine ⟨List.drop_suffix _ _, ?_⟩
      rw [List.length_drop]
      omega
    · rw [if_neg hlen]
      refine ⟨List.suffix_refl _, ?_⟩
      omega
  · intro ids cw
    unfold truncatePromptIds
    by_cases hlen : ((ids.length : Int) > (cw : Int) - (cw : Int))
    · rw [if_pos hlen]
      unfold pySliceFrom
      rw [if_neg (by omega : ¬(-((cw : Int) - (cw : Int)) < 0))]
      simp
    · rw [if_neg hlen]

/-! ### Decoding engine: temperature-zero selection -/

theorem argmaxGo_map (g : ℚ → ℚ) (hg : StrictMono g) (l : List ℚ) (m : ℚ)
    (best i : Nat) : argmaxGo (l.map g) (g m) best i = argmaxGo l m best i := by
  induction l generalizing m best i with
  | nil => rfl
  | cons y ys ih =>
    simp only [List.map_cons, argmaxGo]
    by_cases h : y > m
    · rw [if_pos (hg h), if_pos h, ih]
    · rw [if_neg (fun hc => h (hg.lt_iff_lt.mp hc)), if_neg h, ih]

theorem argmaxIdx_map (g : ℚ → ℚ) (hg : StrictMono g) (l : List ℚ) :
    argmaxIdx (l.map g) = argmaxIdx l := by
  cases l with
  | nil => rfl
  | cons x xs =>
    simp only [List.map_cons, argmaxIdx]
    exact argmaxGo_map g hg xs x 0 1

/-- Softmax with a strictly monotone positive-sum exponential does not move
the argmax. -/
theorem argmaxIdx_softmaxQ (exp : ℚ → ℚ) (hexp : StrictMono exp) (l : List ℚ)
    (hsum : 0 < (l.map exp).sum) :
    argmaxIdx (softmaxQ exp l) = argmaxIdx l := by
  have hg : StrictMono (fun x => exp x / (l.map exp).sum) := by
    intro a b hab
    exact (div_lt_div_iff_of_pos_right hsum).mpr (hexp hab)
  exact argmaxIdx_map _ hg l

/-- C6.  At temperature 0 the selection step is deterministic: whatever the
exponential oracle, the random sampler and `top_p`, the selected token is
the argmax of the penalty-adjusted, unscaled scores (softmax cannot move
the argmax), so two runs on identical inputs agree. -/
theorem claim_temperature_zero_deterministic :
    ∀ (e1 e2 : ℚ → ℚ) (sampler1 sampler2 : List ℚ → ℚ → Nat)
      (tp1 tp2 penalty : ℚ) (logits : List ℚ) (generated : List Nat),
      StrictMono e1 → StrictMono e2 →
      0 < ((apply_repetition_penalty penalty logits generated).map e1).sum →
      0 < ((apply_repetition_penalty penalty logits generated).map e2).sum →
      selectToken e1 sampler1 0 tp1 penalty logits generated
        = argmaxIdx (apply_repetition_penalty penalty logits generated)
      ∧ selectToken e1 sampler1 0 tp1 penalty logits generated
        = selectToken e2 sampler2 0 tp2 penalty logits generated := by
  intro e1 e2 sampler1 sampler2 tp1 tp2 penalty logits generated h1 h2 hs1 hs2
  have hbranch : ¬((0 : ℚ) > 0) := lt_irrefl 0
  constructor
  · unfold selectToken
    rw [if_neg hbranch]
    exact argmaxIdx_softmaxQ e1 h1 _ hs1
  · unfold selectToken
    rw [if_neg hbranch, if_neg hbranch,
      argmaxIdx_softmaxQ e1 h1 _ hs1, argmaxIdx_softmaxQ e2 h2 _ hs2]

/-- Witness for C6: identity exponential, two different samplers and two
different top_p values on scores [1, 2], empty recent history. -/
theorem claim_temperature_zero_deterministic_witness :
    selectToken (fun x => x) (fun _ _ => 0) 0 (1/2) (23/20) [1, 2] []
      = argmaxIdx (apply_repetition_penalty (23/20) [1, 2] [])
    ∧ selectToken (fun x => x) (fun _ _ => 0) 0 (1/2) (23/20) [1, 2] []
      = selectToken (fun x => x) (fun _ _ => 37) 0 (9/10) (23/20) [1, 2] [] :=
  claim_temperature_zero_deterministic (fun x => x) (fun x => x)
    (fun _ _ => 0) (fun _ _ => 37) (1/2) (9/10) (23/20) [1, 2] []
    strictMono_id strictMono_id
    (by norm_num [apply_repetition_penalty])
    (by norm_num [apply_repetition_penalty])

/-! ### Decoding engine: halting and stream shape -/

theorem generateLoop_length_le (step : List Nat → List Nat → Nat)
    (eos bs : Nat) (fuel : Nat) (idx gen : List Nat) :
    (generateLoop step eos bs fuel idx gen).length ≤ gen.length + fuel := by
  induction fuel generalizing idx gen with
  | zero => simp [generateLoop]
  | succ n ih =>
    unfold generateLoop
    by_cases h : step (idx.drop (idx.length - bs)) gen = eos
    · rw [if_pos h]
      omega
    · rw [if_neg h]
      have := ih (idx ++ [step (idx.drop (idx.length - bs)) gen])
        (gen ++ [step (idx.drop (idx.length - bs)) gen])
      simp only [List.length_append, List.length_cons, List.length_nil] at this
      omega

theorem generateStreamLoop_length_le (step : List Nat → List Nat → Nat)
    (d1 : Nat → String) (eos bs pt : Nat) (fuel : Nat) (idx gen : List Nat) :
    (generateStreamLoop step d1 eos bs pt fuel idx gen).length ≤ fuel + 1 := by
  induction fuel generalizing idx gen with
  | zero => simp [generateStreamLoop]
  | succ n ih =>
    unfold generateStreamLoop
    by_cases h : step (idx.drop (idx.length - bs)) gen = eos
    · rw [if_pos h]
      simp
    · rw [if_neg h]
      simp only [List.length_cons]
      have := ih (idx ++ [step (idx.drop (idx.length - bs)) gen])
        (gen ++ [step (idx.drop (idx.length - bs)) gen])
      omega

theorem getLast?_cons_of_ne_nil {α : Type} (a : α) (l : List α) (h : l ≠ []) :
    (a :: l).getLast? = l.getLast? := by
  cases l with
  | nil => exact absurd rfl h
  | cons b t => exact List.getLast?_cons_cons

theorem generateStreamLoop_ne_nil (step : List Nat → List Nat → Nat)
    (d1 : Nat → String) (eos bs pt : Nat) (fuel : Nat) (idx gen : List Nat) :
    generateStreamLoop step d1 eos bs pt fuel idx gen ≠ [] := by
  cases fuel with
  | zero => simp [generateStreamLoop]
  | succ n =>
    unfold generateStreamLoop
    by_cases h : step (idx.drop (idx.length - bs)) gen = eos
    · rw [if_pos h]
      simp
    · rw [if_neg h]
      simp

theorem generateStreamLoop_getLast (step : List Nat → List Nat → Nat)
    (d1 : Nat → String) (eos bs pt : Nat) (fuel : Nat) (idx gen : List Nat) :
    ∃ c, (generateStreamLoop step d1 eos bs pt fuel idx gen).getLast?
      = some (StreamEvent.mk "" true pt c) := by
  induction fuel generalizing idx gen with
  | zero => exact ⟨gen.length, rfl⟩
  | succ n ih =>
    unfold generateStreamLoop
    by_cases h : step (idx.drop (idx.length - bs)) gen = eos
    · rw [if_pos h]
      exact ⟨gen.length, rfl⟩
    · rw [if_neg h]
      obtain ⟨c, hc⟩ := ih (idx ++ [step (idx.drop (idx.length - bs)) gen])
        (gen ++ [step (idx.drop (idx.length - bs)) gen])
      refine ⟨c, ?_⟩
      rw [getLast?_cons_of_ne_nil _ _
        (generateStreamLoop_ne_nil step d1 eos bs pt n _ _), hc]

theorem generateStreamLoop_done_count (step : List Nat → List Nat → Nat)
    (d1 : Nat → String) (eos bs pt : Nat) (fuel : Nat) (idx gen : List Nat) :
    (generateStreamLoop step d1 eos bs pt fuel idx gen).countP
      (fun e => e.is_done) = 1 := by
  induction fuel generalizing idx gen with
  | zero => rfl
  | succ n ih =>
    unfold generateStreamLoop
    by_cases h : step (idx.drop (idx.length - bs)) gen = eos
    · rw [if_pos h]
      rfl
    · rw [if_neg h]
      rw [List.countP_cons]
      simp only [decide_eq_true_eq]
      rw [ih (idx ++ [step (idx.drop (idx.length - bs)) gen])
        (gen ++ [step (idx.drop (idx.length - bs)) gen])]
      rfl

/-- C7.  Decoding halts within `max_tokens` sampling steps whatever the
scoring/sampling oracle does: `generate` returns at most `max_tokens`
completion tokens, and `generate_stream` emits at most `max_tokens + 1`
events, exactly one of which is terminal — the last, with empty text. -/
theorem claim_decoding_halts_within_budget :
    ∀ (step : List Nat → List Nat → Nat) (decode : List Nat → String)
      (decode1 : Nat → String) (eos bs cw mt : Nat) (ids : List Nat),
      1 ≤ mt →
      (generate step decode eos bs cw mt ids).2.2 ≤ mt
      ∧ (generate_stream step decode1 eos bs cw mt ids).length ≤ mt + 1
      ∧ (∃ c, (generate_stream step decode1 eos bs cw mt ids).getLast?
            = some (StreamEvent.mk "" true ids.length c))
      ∧ (generate_stream step decode1 eos bs cw mt ids).countP
          (fun e => e.is_done) = 1 := by
  intro step decode decode1 eos bs cw mt ids _
  refine ⟨?_, ?_, ?_, ?_⟩
  · have := generateLoop_length_le step eos bs mt
      (truncatePromptIds ids cw mt) []
    simpa [generate] using this
  · exact generateStreamLoop_length_le step decode1 eos bs ids.length mt _ _
  · exact generateStreamLoop_getLast step decode1 eos bs ids.length mt _ _
  · exact generateStreamLoop_done_count step decode1 eos bs ids.length mt _ _

/-- Witness for C7 with a constant scoring oracle and a one-step budget. -/
theorem claim_decoding_halts_within_budget_witness :
    (generate (fun _ _ => 0) (fun _ => "") 50256 1024 1024 1 []).2.2 ≤ 1
    ∧ (generate_stream (fun _ _ => 0) (fun _ => "") 50256 1024 1024 1 []).length
        ≤ 1 + 1
    ∧ (∃ c, (generate_stream (fun _ _ => 0) (fun _ => "") 50256 1024 1024 1
          []).getLast? = some (StreamEvent.mk "" true (List.length ([] : List Nat)) c))
    ∧ (generate_stream (fun _ _ => 0) (fun _ => "") 50256 1024 1024 1 []).countP
        (fun e => e.is_done) = 1 :=
  claim_decoding_halts_within_budget (fun _ _ => 0) (fun _ => "") (fun _ => "")
    50256 1024 1024 1 [] (by norm_num)

/-! ### Search failure handling -/

theorem searchRetry_all_failed (cd : Nat → CallOutcome) (cl : CallOutcome)
    (hcd : ∀ i, cd i = CallOutcome.raise ∨ cd i = CallOutcome.ok [])
    (hcl : cl = CallOutcome.raise ∨ cl = CallOutcome.ok []) :
    ∀ rem attempt, searchRetry cd cl attempt rem = [] := by
  intro rem
  induction rem with
  | zero => intro attempt; rfl
  | succ n ih =>
    intro attempt
    rcases hcd attempt with h | h
    · simp [searchRetry, h, ih]
    · by_cases ha : attempt = 0
      · subst ha
        rcases hcl with h2 | h2
        · subst h2
          simp [searchRetry, h, ih]
        · subst h2
          simp [searchRetry, h, ih]
      · simp [searchRetry, h, ha, ih]

/-- C8.  When every retrieval call raises or returns an empty list, the
search boundary returns `[]` without raising; feeding a no-result search
service into `prepare_prompt` yields `used_search = false`,
`sources = none`, and the ungrounded prompt template — the turn proceeds. -/
theorem claim_search_failure_degrades_silently :
    (∀ (available : Bool) (cd : Nat → CallOutcome) (cl : CallOutcome),
        (∀ i, cd i = CallOutcome.raise ∨ cd i = CallOutcome.ok []) →
        (cl = CallOutcome.raise ∨ cl = CallOutcome.ok []) →
        search_model available cd cl = [])
    ∧ (∀ (count : String → Nat) (st : ConversationStore) (sid : String)
        (new_messages : List ChatMessage) (mt : Option Nat) (now : Nat),
        (prepare_prompt count (fun _ => []) st sid new_messages mt now).used_search
            = false
        ∧ (prepare_prompt count (fun _ => []) st sid new_messages mt now).sources
            = none
        ∧ (prepare_prompt count (fun _ => []) st sid new_messages mt now).prompt
            = DEFAULT_SYSTEM ++ "\n\n"
              ++ build_history_context
                  (splitInstruction (truncate_messages count
                    ((st.get sid).2 ++ new_messages) (effectiveMaxCtx mt))).2
              ++ "### Instruction:\n"
              ++ (splitInstruction (truncate_messages count
                    ((st.get sid).2 ++ new_messages) (effectiveMaxCtx mt))).1
              ++ "\n\n### Response:\n") := by
  constructor
  · intro available cd cl hcd hcl
    cases available with
    | false => rfl
    | true =>
      show searchRetry cd cl 0 SEARCH_RETRY_ATTEMPTS = []
      exact searchRetry_all_failed cd cl hcd hcl _ _
  · intro count st sid new_messages mt now
    rw [prepare_prompt_no_results]
    exact ⟨rfl, rfl, rfl⟩

end Resonance
